import Mathlib

/-!
Verification of the LMS dashboard's core data pipeline (record
normalization, directory merge, tenure classification, multi-select
filtering, aggregation and per-employee rollup) against its
natural-language specification.

The definitions below are a shallow embedding of the TypeScript source:

* `src/App.tsx` — CSV row normalization (`loadCSVData` /
  `handleAdminFileUpload` row mappers) and `mergeWithStoreData`;
* `src/components/Spinner.tsx` (Dashboard component) — `calculateTenure`,
  `filteredData`, `employeeCompletionRates`;
* `TrainerCompletionChart` — the group-by-and-rate aggregation.

Modelling conventions:

* JavaScript numbers are modelled as `ℚ`; a possibly-NaN number is
  `Option ℚ` (or `Option ℤ` for integral millisecond values) with `none`
  playing the role of `NaN`.  Every JS comparison `NaN ≤ x` is false, so a
  `none` value falls through every `if (... <= ...)` guard.
* A possibly-`undefined` string field is `Option String`; for plain string
  fields that JS code only ever tests for truthiness, the empty string
  `""` doubles as the absent value (both are falsy, and the code treats
  them identically).
* `Date.parse` is not modelled; a record carries the epoch-millisecond
  value `Option ℤ` that `new Date(date_of_joining).getTime()` would
  produce, `none` standing for an invalid date (`NaN` timestamp).
* JS object-literal accumulators keyed by strings iterate in insertion
  order; they are modelled as association lists where a new key is
  appended at the end.
* `new Map(entries)` lets the *last* entry for a key win, hence the
  `reverse.find?` in `storeMapGet`.
-/

/-! ### JavaScript numeric primitives -/

/-- Decimal digit value of a character, `none` for a non-digit. -/
def digitVal (c : Char) : Option Nat :=
  if c.isDigit then some (c.toNat - 48) else none

/-- Split a character list into its maximal leading run of digits and the
remainder. -/
def takeDigits : List Char → List Nat × List Char
  | [] => ([], [])
  | c :: cs =>
    match digitVal c with
    | some d => let p := takeDigits cs; (d :: p.1, p.2)
    | none => ([], c :: cs)

/-- Value of a most-significant-first digit list. -/
def natOfDigits (ds : List Nat) : Nat :=
  ds.foldl (fun a d => a * 10 + d) 0

/-- Model of JavaScript `parseFloat` restricted to plain decimal literals
(optional sign, integer part, optional fractional part; leading
whitespace, exponents and `Infinity` are outside the fragment this
codebase feeds it).  `none` models the `NaN` result on a string with no
numeric prefix. -/
def parseFloat (s : String) : Option ℚ :=
  let p0 := s.data
  let sp : ℚ × List Char :=
    match p0 with
    | '-' :: t => (-1, t)
    | '+' :: t => (1, t)
    | t => (1, t)
  let ip := takeDigits sp.2
  let fp : List Nat × List Char :=
    match ip.2 with
    | '.' :: t => takeDigits t
    | t => ([], t)
  if ip.1 = [] ∧ fp.1 = [] then none
  else some (sp.1 * ((natOfDigits ip.1 : ℚ) + (natOfDigits fp.1 : ℚ) / (10 : ℚ) ^ fp.1.length))

/-- `Math.round` for the non-negative finite values this code produces:
`Math.round x = floor (x + 1/2)`.  Stated via `Rat.floor` so that it is
kernel-evaluable. -/
def jsRound (q : ℚ) : ℤ := Rat.floor (q + 1 / 2)

/-- JS truthiness of an optional string (CSV cell): `undefined` and `""`
are falsy, everything else truthy. -/
def truthyStr (v : Option String) : Bool :=
  match v with
  | none => false
  | some s => s ≠ ""

/-! ### Data model (`src/types.ts`)

One record type models both `EmployeeTrainingRecord` and `MergedData`:
at runtime a "merged" record is just a training record whose spread with
the directory info may or may not have added the four directory fields,
so those four are `Option String` (`none` = field absent).  Only the
fields the verified pipeline reads are carried. -/

structure TrainingRecord where
  employee_code : String
  employee_name : String
  designation : String
  /-- `new Date(date_of_joining).getTime()` in ms; `none` = unparseable date. -/
  date_of_joining : Option ℤ
  course_name : String
  course_completion_status : String
  /-- legacy `completion_status` field used as `||` fallback; `""` = absent. -/
  completion_status : String
  completion_date : String
  course_end_date : String
  /-- `'Store ID'` optional column. -/
  storeId : Option String
  location : Option String
  Region : Option String
  AM : Option String
  Trainer : Option String
deriving DecidableEq, Repr

/-- `StoreRecord` of `src/types.ts` (one directory row). -/
structure StoreRecord where
  storeId : String
  location : String
  Region : String
  AM : String
  Trainer : String
deriving DecidableEq, Repr

/-- The directory payload merged onto a record (`Omit<StoreRecord, 'Store ID'>`). -/
structure StoreInfo where
  location : String
  Region : String
  AM : String
  Trainer : String
deriving DecidableEq, Repr

/-- A record with every field blank/absent; concrete inputs below are
built from it by field update. -/
def blankRecord : TrainingRecord :=
  { employee_code := "", employee_name := "", designation := ""
    date_of_joining := none, course_name := "", course_completion_status := ""
    completion_status := "", completion_date := "", course_end_date := ""
    storeId := none, location := none, Region := none, AM := none, Trainer := none }

/-! ### Record normalization (`src/App.tsx`, csvParse row mappers)

The row mapper runs
`course_completion_hours: d.course_completion_hours ? parseFloat(d.course_completion_hours) : 0`,
`course_progress: d.course_progress ? parseFloat(String(d.course_progress).replace('%','')) : 0`,
`course_completion_status: d.course_completion_status === 'Completed' ? 'Completed' : 'Not Completed'`.
Each is embedded as a function of the raw cell (`Option String`, `none`
= missing column). -/

/-- Remove the first occurrence of a character, as JS
`String.prototype.replace` with a string pattern does. -/
def removeFirstChar (c : Char) : List Char → List Char
  | [] => []
  | x :: xs => if x = c then xs else x :: removeFirstChar c xs

/-- `String(v).replace('%', '')`. -/
def replacePctOnce (s : String) : String :=
  ⟨removeFirstChar '%' s.data⟩

/-- Normalized `course_completion_hours` of a raw cell. -/
def normCompletionHours (v : Option String) : Option ℚ :=
  if truthyStr v then parseFloat (v.getD "") else some 0

/-- Normalized `course_progress` of a raw cell. -/
def normCourseProgress (v : Option String) : Option ℚ :=
  if truthyStr v then parseFloat (replacePctOnce (v.getD "")) else some 0

/-- Normalized `course_completion_status` of a raw cell. -/
def normCompletionStatus (v : Option String) : String :=
  if v = some "Completed" then "Completed" else "Not Completed"

/-! ### Directory merge (`mergeWithStoreData`, `src/App.tsx` lines 92-101) -/

/-- Lookup in `new Map(storeMappingData.map(s => [s['Store ID'], {...}]))`:
for a duplicated key the last directory row wins. -/
def storeMapGet (dir : List StoreRecord) (sid : String) : Option StoreInfo :=
  (dir.reverse.find? (fun s => s.storeId = sid)).map
    (fun s => ⟨s.location, s.Region, s.AM, s.Trainer⟩)

/-- The truthiness test `emp['Store ID'] ? ... : undefined`: an absent or
empty store id yields `undefined`. -/
def truthyId (v : Option String) : Option String :=
  match v with
  | none => none
  | some s => if s = "" then none else some s

/-- One step of the merge: `{...emp, ...storeInfo}` where `storeInfo` is
`undefined` when the id is falsy or unmatched (spreading `undefined`
leaves the record unchanged). -/
def mergeOne (dir : List StoreRecord) (emp : TrainingRecord) : TrainingRecord :=
  match truthyId emp.storeId with
  | none => emp
  | some sid =>
    match storeMapGet dir sid with
    | none => emp
    | some info =>
      { emp with location := some info.location, Region := some info.Region,
                 AM := some info.AM, Trainer := some info.Trainer }

/-- `mergeWithStoreData` maps the per-record merge over the data. -/
def mergeWithStoreData (dir : List StoreRecord) (data : List TrainingRecord) :
    List TrainingRecord :=
  data.map (mergeOne dir)

/-! ### Tenure classification (`calculateTenure`, Dashboard in
`src/components/Spinner.tsx` lines 56-65; duplicated verbatim in
`TenureDistributionChart` and `TenureCompletionChart`) -/

/-- Milliseconds per day, `1000 * 60 * 60 * 24`. -/
def msPerDay : ℤ := 1000 * 60 * 60 * 24

/-- `Math.floor((now.getTime() - joinDate.getTime()) / 86400000)`.
An invalid join date gives a `NaN` timestamp, and `NaN` propagates
through the arithmetic: modelled by `Option.map`. -/
def daysDiff (nowMs : ℤ) (joinMs : Option ℤ) : Option ℤ :=
  joinMs.map (fun j => Int.fdiv (nowMs - j) msPerDay)

/-- The tenure bucket if-chain.  When `daysDiff` is `NaN` (`none`) every
comparison `daysDiff <= k` is false in JS, so control falls through to
the final `return 'over a month'`. -/
def calculateTenure (nowMs : ℤ) (joinMs : Option ℤ) : String :=
  match daysDiff nowMs joinMs with
  | none => "over a month"
  | some d =>
    if d ≤ 4 then "1-4 days"
    else if d ≤ 15 then "5-15 days"
    else if d ≤ 30 then "16-30 days"
    else "over a month"

/-! ### Multi-select filter (`filteredData`, Dashboard in
`src/components/Spinner.tsx` lines 94-132) -/

/-- The six multi-select filter states of the Dashboard. -/
structure FilterSelection where
  selectedTenure : List String
  selectedStore : List String
  selectedAreaManager : List String
  selectedTrainer : List String
  selectedCourse : List String
  selectedDesignation : List String
deriving DecidableEq, Repr

/-- The default state: all six selections empty. -/
def emptySelection : FilterSelection := ⟨[], [], [], [], [], []⟩

/-- `const tenure = calculateTenure(item.date_of_joining)`. -/
def tenureValue (nowMs : ℤ) (item : TrainingRecord) : String :=
  calculateTenure nowMs item.date_of_joining

/-- `const storeName = isMerged ? item.location : 'Unknown'` — note that on
a merged dataset the raw `location` field is used, which may be absent. -/
def storeName (isMerged : Bool) (item : TrainingRecord) : Option String :=
  if isMerged then item.location else some "Unknown"

/-- `const areaManager = isMerged ? item.AM : 'Unknown'`. -/
def areaManagerValue (isMerged : Bool) (item : TrainingRecord) : Option String :=
  if isMerged then item.AM else some "Unknown"

/-- `const trainer = isMerged ? item.Trainer : 'Unknown'`. -/
def trainerValue (isMerged : Bool) (item : TrainingRecord) : Option String :=
  if isMerged then item.Trainer else some "Unknown"

/-- `item.course_name || 'Unknown'` (falsy = absent or blank). -/
def courseValue (item : TrainingRecord) : String :=
  if item.course_name = "" then "Unknown" else item.course_name

/-- `item.designation || 'Unknown'`. -/
def designationValue (item : TrainingRecord) : String :=
  if item.designation = "" then "Unknown" else item.designation

/-- `selected.includes(v)` for a possibly-`undefined` value: a string
array never contains `undefined`, so an absent value never matches. -/
def includesOpt (sel : List String) (v : Option String) : Bool :=
  match v with
  | none => false
  | some s => decide (s ∈ sel)

/-- The filter predicate body: each dimension's early
`if (selected.length > 0) { if (!selected.includes(value)) return false }`
is one conjunct. -/
def recordPasses (isMerged : Bool) (nowMs : ℤ) (f : FilterSelection)
    (item : TrainingRecord) : Bool :=
  (if f.selectedTenure.length > 0
     then decide (tenureValue nowMs item ∈ f.selectedTenure) else true) &&
  (if f.selectedStore.length > 0
     then includesOpt f.selectedStore (storeName isMerged item) else true) &&
  (if f.selectedAreaManager.length > 0
     then includesOpt f.selectedAreaManager (areaManagerValue isMerged item) else true) &&
  (if f.selectedTrainer.length > 0
     then includesOpt f.selectedTrainer (trainerValue isMerged item) else true) &&
  (if f.selectedCourse.length > 0
     then decide (courseValue item ∈ f.selectedCourse) else true) &&
  (if f.selectedDesignation.length > 0
     then decide (designationValue item ∈ f.selectedDesignation) else true)

/-- `filteredData = data.filter(item => ...)`. -/
def filteredData (isMerged : Bool) (nowMs : ℤ) (f : FilterSelection)
    (data : List TrainingRecord) : List TrainingRecord :=
  data.filter (recordPasses isMerged nowMs f)

/-- A present value counted as selected: the spec's "the record's value
for that dimension is a member of that dimension's selected-value set". -/
def optSelected (sel : List String) (v : Option String) : Prop :=
  ∃ s, v = some s ∧ s ∈ sel

/-- The specification's formulation of the filter: for each dimension
with a non-empty selection the record's dimension value belongs to the
selected set (OR within a dimension, AND across dimensions). -/
def specMatches (isMerged : Bool) (nowMs : ℤ) (f : FilterSelection)
    (item : TrainingRecord) : Prop :=
  (f.selectedTenure ≠ [] → tenureValue nowMs item ∈ f.selectedTenure) ∧
  (f.selectedStore ≠ [] → optSelected f.selectedStore (storeName isMerged item)) ∧
  (f.selectedAreaManager ≠ [] → optSelected f.selectedAreaManager (areaManagerValue isMerged item)) ∧
  (f.selectedTrainer ≠ [] → optSelected f.selectedTrainer (trainerValue isMerged item)) ∧
  (f.selectedCourse ≠ [] → courseValue item ∈ f.selectedCourse) ∧
  (f.selectedDesignation ≠ [] → designationValue item ∈ f.selectedDesignation)

/-! ### Connecting lemmas for the filter -/

/-- A dimension guard passes exactly when a non-empty selection forces
the membership test. -/
lemma guard_iff (sel : List String) (b : Bool) :
    ((if sel.length > 0 then b else true) = true) ↔ (sel ≠ [] → b = true) := by
  cases sel <;> simp

/-- `includesOpt` decides `optSelected`. -/
lemma includesOpt_iff (sel : List String) (v : Option String) :
    includesOpt sel v = true ↔ optSelected sel v := by
  cases v <;> simp [includesOpt, optSelected]

/-- The filter predicate agrees with the specification's formulation. -/
lemma recordPasses_iff (isMerged : Bool) (nowMs : ℤ) (f : FilterSelection)
    (item : TrainingRecord) :
    recordPasses isMerged nowMs f item = true ↔ specMatches isMerged nowMs f item := by
  simp only [recordPasses, specMatches, Bool.and_eq_true, guard_iff,
    includesOpt_iff, decide_eq_true_eq, and_assoc]

/-- Filter congruence: pointwise equal predicates filter identically. -/
lemma filteredData_congr (isMerged : Bool) (nowMs : ℤ) (f g : FilterSelection)
    (data : List TrainingRecord)
    (h : ∀ item, recordPasses isMerged nowMs f item = recordPasses isMerged nowMs g item) :
    filteredData isMerged nowMs f data = filteredData isMerged nowMs g data :=
  List.filter_congr (fun a _ => h a)

/-! ### Concrete inputs for counterexamples and witnesses -/

/-- A selection that asks for the store `"Unknown"` only. -/
def unknownStoreSel : FilterSelection := { emptySelection with selectedStore := ["Unknown"] }

/-- A one-row store directory. -/
def demoDirectory : List StoreRecord :=
  [⟨"S1", "Store One", "North", "AM One", "Trainer One"⟩]

/-! ### Claims C1-C7 and C10 -/

/-- C1: a record is in the filter output iff it is in the input and, for
each dimension with a non-empty selection, its value for that dimension
belongs to the selected set (OR within a dimension, AND across
dimensions); the output is a subsequence of the input, so relative order
is preserved. -/
theorem C1_filter_and_or_semantics (isMerged : Bool) (nowMs : ℤ) (f : FilterSelection)
    (data : List TrainingRecord) (r : TrainingRecord) :
    (r ∈ filteredData isMerged nowMs f data ↔ r ∈ data ∧ specMatches isMerged nowMs f r) ∧
    (filteredData isMerged nowMs f data).Sublist data := by
  constructor
  · rw [filteredData, List.mem_filter, recordPasses_iff]
  · exact List.filter_sublist data

/-- C2: with all six selections empty the filter returns the input list
unchanged (identity law). -/
theorem C2_empty_selection_identity (isMerged : Bool) (nowMs : ℤ)
    (data : List TrainingRecord) :
    filteredData isMerged nowMs emptySelection data = data := by
  unfold filteredData
  refine List.filter_eq_self.mpr (fun a _ => ?_)
  simp [recordPasses, emptySelection]

/-- C3 counterexample: on a merged dataset a record whose `location`
field is absent is NOT matched as `"Unknown"` — selecting the store
`"Unknown"` filters it out, contrary to the claim that a missing value
for any of the six dimensions is treated as `"Unknown"`. -/
theorem C3_counterexample :
    blankRecord.location = none ∧
    "Unknown" ∈ unknownStoreSel.selectedStore ∧
    filteredData true 0 unknownStoreSel [blankRecord] = [] := by
  refine ⟨rfl, by decide, by decide⟩

/-- C3 (amended): only the course and designation dimensions coalesce a
missing/blank value to `"Unknown"`.  On a merged dataset the store,
area-manager and trainer dimensions use the raw merged fields
(`location`, `AM`, `Trainer`), and an absent value matches no selection
at all (even one containing `"Unknown"`); on an unmerged dataset those
three values are the constant `"Unknown"`; an unparseable joining date
lands in the `"over a month"` tenure bucket, not in an `"Unknown"` one. -/
theorem C3_unknown_coalescing (nowMs : ℤ) (sel : List String) (r : TrainingRecord)
    (hc : r.course_name = "") (hd : r.designation = "") (hl : r.location = none)
    (ham : r.AM = none) (htr : r.Trainer = none) (hj : r.date_of_joining = none) :
    courseValue r = "Unknown" ∧
    designationValue r = "Unknown" ∧
    includesOpt sel (storeName true r) = false ∧
    includesOpt sel (areaManagerValue true r) = false ∧
    includesOpt sel (trainerValue true r) = false ∧
    storeName false r = some "Unknown" ∧
    areaManagerValue false r = some "Unknown" ∧
    trainerValue false r = some "Unknown" ∧
    tenureValue nowMs r = "over a month" := by
  refine ⟨?_, ?_, ?_, ?_, ?_, rfl, rfl, rfl, ?_⟩
  · simp [courseValue, hc]
  · simp [designationValue, hd]
  · simp [storeName, hl, includesOpt]
  · simp [areaManagerValue, ham, includesOpt]
  · simp [trainerValue, htr, includesOpt]
  · simp [tenureValue, hj, calculateTenure, daysDiff]

/-- Witness for C3 at the all-blank record. -/
theorem C3_witness :
    courseValue blankRecord = "Unknown" ∧
    designationValue blankRecord = "Unknown" ∧
    includesOpt ["Unknown"] (storeName true blankRecord) = false ∧
    includesOpt ["Unknown"] (areaManagerValue true blankRecord) = false ∧
    includesOpt ["Unknown"] (trainerValue true blankRecord) = false ∧
    storeName false blankRecord = some "Unknown" ∧
    areaManagerValue false blankRecord = some "Unknown" ∧
    trainerValue false blankRecord = some "Unknown" ∧
    tenureValue 0 blankRecord = "over a month" :=
  C3_unknown_coalescing 0 ["Unknown"] blankRecord rfl rfl rfl rfl rfl rfl

/-- C4 counterexample: a record with no `storeId` survives the merge, but
its directory fields stay absent (`none`), not the literal `"Unknown"`
the claim promises. -/
theorem C4_counterexample :
    mergeWithStoreData demoDirectory [blankRecord] = [blankRecord] ∧
    blankRecord.storeId = none ∧
    blankRecord.AM = none ∧ blankRecord.AM ≠ some "Unknown" ∧
    blankRecord.location = none ∧ blankRecord.location ≠ some "Unknown" := by
  refine ⟨by decide, rfl, rfl, by decide, rfl, by decide⟩

/-- C4 (amended): the merge is a left join that never drops a record —
the output has the input's length — and a record whose store id is
absent/empty or unmatched passes through entirely unchanged, its
directory fields left absent (`undefined`); the `"Unknown"` substitution
happens only downstream, at each point of use. -/
theorem C4_merge_left_join (dir : List StoreRecord) (data : List TrainingRecord)
    (emp : TrainingRecord)
    (h : truthyId emp.storeId = none ∨
         ∃ sid, truthyId emp.storeId = some sid ∧ storeMapGet dir sid = none) :
    (mergeWithStoreData dir data).length = data.length ∧
    mergeOne dir emp = emp := by
  refine ⟨by simp [mergeWithStoreData], ?_⟩
  rcases h with h | ⟨sid, h1, h2⟩
  · simp [mergeOne, h]
  · simp [mergeOne, h1, h2]

/-- Witness for C4: one-row directory, one record with no store id. -/
theorem C4_witness :
    (mergeWithStoreData demoDirectory [blankRecord]).length = [blankRecord].length ∧
    mergeOne demoDirectory blankRecord = blankRecord :=
  C4_merge_left_join demoDirectory [blankRecord] blankRecord (Or.inl rfl)

/-- Exact-multiple day differences land on the if-chain at that day count. -/
lemma calculateTenure_exact (nowMs j k : ℤ) (h : nowMs - j = k * msPerDay) :
    calculateTenure nowMs (some j) =
      (if k ≤ 4 then "1-4 days"
       else if k ≤ 15 then "5-15 days"
       else if k ≤ 30 then "16-30 days"
       else "over a month") := by
  have hne : msPerDay ≠ 0 := by norm_num [msPerDay]
  simp only [calculateTenure, daysDiff, Option.map_some', h, Int.mul_fdiv_cancel _ hne]

/-- C5: the tenure boundaries are inclusive-upper on
`daysDiff = floor((now - join) / 86400000)`: 4 days → `"1-4 days"`,
5 and 15 → `"5-15 days"`, 16 → `"16-30 days"`, 31 → `"over a month"`. -/
theorem C5_tenure_boundaries (nowMs j4 j5 j15 j16 j31 : ℤ)
    (h4 : nowMs - j4 = 4 * msPerDay) (h5 : nowMs - j5 = 5 * msPerDay)
    (h15 : nowMs - j15 = 15 * msPerDay) (h16 : nowMs - j16 = 16 * msPerDay)
    (h31 : nowMs - j31 = 31 * msPerDay) :
    calculateTenure nowMs (some j4) = "1-4 days" ∧
    calculateTenure nowMs (some j5) = "5-15 days" ∧
    calculateTenure nowMs (some j15) = "5-15 days" ∧
    calculateTenure nowMs (some j16) = "16-30 days" ∧
    calculateTenure nowMs (some j31) = "over a month" := by
  refine ⟨?_, ?_, ?_, ?_, ?_⟩
  · rw [calculateTenure_exact nowMs j4 4 h4]; decide
  · rw [calculateTenure_exact nowMs j5 5 h5]; decide
  · rw [calculateTenure_exact nowMs j15 15 h15]; decide
  · rw [calculateTenure_exact nowMs j16 16 h16]; decide
  · rw [calculateTenure_exact nowMs j31 31 h31]; decide

/-- Witness for C5 with now = 31 whole days after epoch. -/
theorem C5_witness :
    calculateTenure (31 * msPerDay) (some (27 * msPerDay)) = "1-4 days" ∧
    calculateTenure (31 * msPerDay) (some (26 * msPerDay)) = "5-15 days" ∧
    calculateTenure (31 * msPerDay) (some (16 * msPerDay)) = "5-15 days" ∧
    calculateTenure (31 * msPerDay) (some (15 * msPerDay)) = "16-30 days" ∧
    calculateTenure (31 * msPerDay) (some 0) = "over a month" :=
  C5_tenure_boundaries (31 * msPerDay) (27 * msPerDay) (26 * msPerDay)
    (16 * msPerDay) (15 * msPerDay) 0
    (by ring) (by ring) (by ring) (by ring) (by ring)

/-- C6: a `NaN` day difference (unparseable joining date) falls through
every comparison to the `"over a month"` fallback, and the classifier
always lands in one of exactly four buckets. -/
theorem C6_nan_fallback (nowMs : ℤ) (joinMs : Option ℤ) :
    calculateTenure nowMs none = "over a month" ∧
    calculateTenure nowMs joinMs ∈
      ["1-4 days", "5-15 days", "16-30 days", "over a month"] := by
  refine ⟨rfl, ?_⟩
  cases joinMs with
  | none => simp [calculateTenure, daysDiff]
  | some j =>
    simp only [calculateTenure, daysDiff, Option.map_some']
    split_ifs <;> simp

/-- C7 counterexample: a present but non-numeric `course_completion_hours`
cell is truthy, so the mapper calls `parseFloat` on it and stores `NaN`
instead of the claimed default `0` — and likewise for `course_progress`. -/
theorem C7_counterexample :
    normCompletionHours (some "N/A") = none ∧
    normCompletionHours (some "N/A") ≠ some 0 ∧
    normCourseProgress (some "N/A") = none := by
  refine ⟨by decide, by decide, by decide⟩

/-- C7 (amended): the mappers default to `0` only when the raw cell is
falsy (absent or the empty string); a present non-empty cell is handed to
`parseFloat` — after removing the first `%` for `course_progress` — and a
non-numeric cell therefore yields `NaN`, which does reach the normalized
record. -/
theorem C7_normalizer_defaults (v : Option String) (hfalsy : truthyStr v = false) :
    normCompletionHours v = some 0 ∧
    normCourseProgress v = some 0 ∧
    (∀ s : String, normCompletionHours (some s) =
        if s = "" then some 0 else parseFloat s) ∧
    (∀ s : String, normCourseProgress (some s) =
        if s = "" then some 0 else parseFloat (replacePctOnce s)) ∧
    (∀ l : List Char, '%' ∉ l → removeFirstChar '%' (l ++ ['%']) = l) := by
  refine ⟨?_, ?_, ?_, ?_, ?_⟩
  · simp [normCompletionHours, hfalsy]
  · simp [normCourseProgress, hfalsy]
  · intro s
    by_cases hs : s = "" <;> simp [normCompletionHours, truthyStr, hs]
  · intro s
    by_cases hs : s = "" <;> simp [normCourseProgress, truthyStr, hs]
  · intro l hl
    induction l with
    | nil => simp [removeFirstChar]
    | cons c cs ih =>
      have hc : c ≠ '%' := fun hcontra => hl (hcontra ▸ List.mem_cons_self c cs)
      have hcs : '%' ∉ cs := fun hcontra => hl (List.mem_cons_of_mem c hcontra)
      simp [removeFirstChar, hc, ih hcs]

/-- Witness for C7 at the absent cell. -/
theorem C7_witness :
    truthyStr none = false ∧
    normCompletionHours none = some 0 ∧ normCourseProgress none = some 0 :=
  ⟨rfl, (C7_normalizer_defaults none rfl).1, (C7_normalizer_defaults none rfl).2.1⟩

/-- C10: on an unmerged dataset the store, area-manager and trainer
dimension values are the constant `"Unknown"`; hence a non-empty
selection on one of those dimensions either leaves the rest of the
filter unchanged (when `"Unknown"` is selected) or empties the output
(when it is not). -/
theorem C10_unmerged_constant_unknown (nowMs : ℤ) (f : FilterSelection)
    (data : List TrainingRecord) :
    (∀ item : TrainingRecord,
        storeName false item = some "Unknown" ∧
        areaManagerValue false item = some "Unknown" ∧
        trainerValue false item = some "Unknown") ∧
    ("Unknown" ∈ f.selectedStore →
        filteredData false nowMs f data =
          filteredData false nowMs { f with selectedStore := [] } data) ∧
    (f.selectedStore ≠ [] → "Unknown" ∉ f.selectedStore →
        filteredData false nowMs f data = []) ∧
    ("Unknown" ∈ f.selectedAreaManager →
        filteredData false nowMs f data =
          filteredData false nowMs { f with selectedAreaManager := [] } data) ∧
    (f.selectedAreaManager ≠ [] → "Unknown" ∉ f.selectedAreaManager →
        filteredData false nowMs f data = []) ∧
    ("Unknown" ∈ f.selectedTrainer →
        filteredData false nowMs f data =
          filteredData false nowMs { f with selectedTrainer := [] } data) ∧
    (f.selectedTrainer ≠ [] → "Unknown" ∉ f.selectedTrainer →
        filteredData false nowMs f data = []) := by
  refine ⟨fun item => ⟨rfl, rfl, rfl⟩, ?_, ?_, ?_, ?_, ?_, ?_⟩
  · intro hmem
    refine filteredData_congr false nowMs _ _ data (fun item => ?_)
    simp [recordPasses, includesOpt, storeName, hmem]
  · intro hne hnot
    have hlen : f.selectedStore.length > 0 := List.length_pos.mpr hne
    refine List.filter_eq_nil_iff.mpr (fun a _ => ?_)
    simp [recordPasses, includesOpt, storeName, hnot, hlen]
  · intro hmem
    refine filteredData_congr false nowMs _ _ data (fun item => ?_)
    simp [recordPasses, includesOpt, areaManagerValue, hmem]
  · intro hne hnot
    have hlen : f.selectedAreaManager.length > 0 := List.length_pos.mpr hne
    refine List.filter_eq_nil_iff.mpr (fun a _ => ?_)
    simp [recordPasses, includesOpt, areaManagerValue, hnot, hlen]
  · intro hmem
    refine filteredData_congr false nowMs _ _ data (fun item => ?_)
    simp [recordPasses, includesOpt, trainerValue, hmem]
  · intro hne hnot
    have hlen : f.selectedTrainer.length > 0 := List.length_pos.mpr hne
    refine List.filter_eq_nil_iff.mpr (fun a _ => ?_)
    simp [recordPasses, includesOpt, trainerValue, hnot, hlen]

/-! ### Group-by-and-rate aggregation (`TrainerCompletionChart`)

`data.reduce((acc, record) => { const trainer = record.Trainer || 'Unknown';
 ... acc[trainer].total++; if (record.course_completion_status === 'Completed')
 acc[trainer].completed++; ...}, {})` followed by
`Object.keys(...).map(trainer => ({name, 'Completion Rate': completed/total*100}))`.
The accumulator object is modelled as an insertion-ordered association
list.  The chart then sorts `chartData` by descending rate, which only
permutes the buckets and is not modelled. -/

/-- A `{ total, completed }` accumulator cell. -/
structure Bucket where
  total : Nat
  completed : Nat
deriving DecidableEq, Repr

/-- `record.Trainer || 'Unknown'` (absent or blank coalesces). -/
def trainerKey (r : TrainingRecord) : String :=
  match r.Trainer with
  | none => "Unknown"
  | some t => if t = "" then "Unknown" else t

/-- `record.course_completion_status === 'Completed'`. -/
def isCompletedRec (r : TrainingRecord) : Bool :=
  decide (r.course_completion_status = "Completed")

/-- One `reduce` step: create-or-increment the key's cell, new keys
appended in insertion order. -/
def bump (acc : List (String × Bucket)) (key : String) (completedFlag : Bool) :
    List (String × Bucket) :=
  match acc with
  | [] => [(key, ⟨1, if completedFlag then 1 else 0⟩)]
  | (k, b) :: rest =>
    if k = key then
      (k, ⟨b.total + 1, if completedFlag then b.completed + 1 else b.completed⟩) :: rest
    else (k, b) :: bump rest key completedFlag

/-- The `trainerData` accumulator of `TrainerCompletionChart`. -/
def trainerData (data : List TrainingRecord) : List (String × Bucket) :=
  data.foldl (fun acc r => bump acc (trainerKey r) (isCompletedRec r)) []

/-- `completed / total * 100`. -/
def rate (b : Bucket) : ℚ := (b.completed : ℚ) / (b.total : ℚ) * 100

/-- The per-key `'Completion Rate'` entries (before the presentation sort). -/
def chartData (data : List TrainingRecord) : List (String × ℚ) :=
  (trainerData data).map (fun p => (p.1, rate p.2))

/-- The bucket invariant: every cell has been incremented at least once
and counts completions among its own records. -/
def bucketsOk (acc : List (String × Bucket)) : Prop :=
  ∀ p ∈ acc, 1 ≤ p.2.total ∧ p.2.completed ≤ p.2.total

/-- `bump` preserves the bucket invariant. -/
lemma bucketsOk_bump (key : String) (c : Bool) :
    ∀ acc : List (String × Bucket), bucketsOk acc → bucketsOk (bump acc key c) := by
  intro acc
  induction acc with
  | nil =>
    intro _ p hp
    simp only [bump, List.mem_singleton] at hp
    subst hp
    refine ⟨le_refl 1, ?_⟩
    show (if c = true then 1 else 0) ≤ 1
    split_ifs <;> omega
  | cons q rest ih =>
    obtain ⟨k, b⟩ := q
    intro h p hp
    have hq : 1 ≤ b.total ∧ b.completed ≤ b.total := h (k, b) (List.mem_cons_self _ _)
    have hrest : bucketsOk rest := fun x hx => h x (List.mem_cons_of_mem _ hx)
    by_cases hk : k = key
    · simp only [bump, if_pos hk] at hp
      rcases List.mem_cons.mp hp with hp1 | hp2
      · subst hp1
        refine ⟨?_, ?_⟩
        · show 1 ≤ b.total + 1
          omega
        · show (if c = true then b.completed + 1 else b.completed) ≤ b.total + 1
          have h2 := hq.2
          split_ifs <;> omega
      · exact hrest p hp2
    · simp only [bump, if_neg hk] at hp
      rcases List.mem_cons.mp hp with hp1 | hp2
      · subst hp1; exact hq
      · exact ih hrest p hp2

/-- The accumulator of `trainerData` satisfies the bucket invariant. -/
lemma bucketsOk_trainerData (data : List TrainingRecord) : bucketsOk (trainerData data) := by
  have hfold : ∀ (l : List TrainingRecord) (acc : List (String × Bucket)),
      bucketsOk acc →
      bucketsOk (l.foldl (fun acc r => bump acc (trainerKey r) (isCompletedRec r)) acc) := by
    intro l
    induction l with
    | nil => intro acc h; simpa using h
    | cons r t ih => intro acc h; exact ih _ (bucketsOk_bump _ _ acc h)
  exact hfold data [] (fun p hp => absurd hp (List.not_mem_nil p))

/-- C8: every bucket emitted by the group-by-and-rate computation has
`total ≥ 1`, `completed ≤ total` and a rate `completed/total*100` between
0 and 100, and that rate is what the chart entry carries. -/
theorem C8_aggregation_invariant (data : List TrainingRecord) (k : String) (b : Bucket)
    (hmem : (k, b) ∈ trainerData data) :
    1 ≤ b.total ∧ b.completed ≤ b.total ∧ 0 ≤ rate b ∧ rate b ≤ 100 ∧
    (k, rate b) ∈ chartData data := by
  obtain ⟨h1, h2⟩ := bucketsOk_trainerData data (k, b) hmem
  have htpos : (0 : ℚ) < (b.total : ℚ) := by exact_mod_cast h1
  refine ⟨h1, h2, ?_, ?_, ?_⟩
  · unfold rate; positivity
  · unfold rate
    have hdiv : (b.completed : ℚ) / (b.total : ℚ) ≤ 1 := by
      rw [div_le_one htpos]; exact_mod_cast h2
    have h3 := mul_le_mul_of_nonneg_right hdiv (by norm_num : (0 : ℚ) ≤ 100)
    simpa using h3
  · exact List.mem_map_of_mem _ hmem

/-- One enrollment by trainer `"T1"`, completed. -/
def aggDemoData : List TrainingRecord :=
  [{ blankRecord with Trainer := some "T1", course_completion_status := "Completed" }]

/-- Witness for C8 on a singleton dataset. -/
theorem C8_witness :
    ("T1", (⟨1, 1⟩ : Bucket)) ∈ trainerData aggDemoData ∧
    0 ≤ rate ⟨1, 1⟩ ∧ rate ⟨1, 1⟩ ≤ 100 ∧
    ("T1", rate ⟨1, 1⟩) ∈ chartData aggDemoData :=
  ⟨by decide,
    (C8_aggregation_invariant aggDemoData "T1" ⟨1, 1⟩ (by decide)).2.2.1,
    (C8_aggregation_invariant aggDemoData "T1" ⟨1, 1⟩ (by decide)).2.2.2.1,
    (C8_aggregation_invariant aggDemoData "T1" ⟨1, 1⟩ (by decide)).2.2.2.2⟩

/-! ### Per-employee rollup (`employeeCompletionRates`, Dashboard in
`src/components/Spinner.tsx` lines 139-172)

A `Map` keyed by `employee_code` is filled in one pass; a missing key is
initialised and then the (mutated-in-place) entry gets `total_courses++`,
a pushed course, a conditional `completed_courses++` and a recomputed
`completion_rate = Math.round(completed/total*100)`.  The map's
insertion-order iteration is modelled as an association list whose first
matching entry is updated in place and where new entries are appended. -/

/-- `item.course_completion_status || item.completion_status`. -/
def effStatus (r : TrainingRecord) : String :=
  if r.course_completion_status = "" then r.completion_status else r.course_completion_status

/-- One element of an employee's `courses` array. -/
structure CourseEntry where
  course_name : String
  completion_status : String
  completion_date : String
  course_end_date : String
deriving DecidableEq, Repr

/-- One value of the `employeeMap`. -/
structure EmployeeRollup where
  employee_code : String
  employee_name : String
  designation : String
  total_courses : Nat
  completed_courses : Nat
  completion_rate : ℤ
  courses : List CourseEntry
deriving DecidableEq, Repr

/-- The course payload pushed for a record. -/
def mkCourse (r : TrainingRecord) : CourseEntry :=
  ⟨r.course_name, effStatus r, r.completion_date, r.course_end_date⟩

/-- The freshly-`set` entry for a first-seen employee code. -/
def initRollup (r : TrainingRecord) : EmployeeRollup :=
  ⟨r.employee_code, r.employee_name, r.designation, 0, 0, 0, []⟩

/-- The per-record mutation of an employee's entry. -/
def addCourse (e : EmployeeRollup) (r : TrainingRecord) : EmployeeRollup :=
  let total := e.total_courses + 1
  let completed :=
    if effStatus r = "Completed" then e.completed_courses + 1 else e.completed_courses
  { e with
      total_courses := total,
      completed_courses := completed,
      courses := e.courses ++ [mkCourse r],
      completion_rate := jsRound ((completed : ℚ) / (total : ℚ) * 100) }

/-- Process one record: update the (unique) entry with its code, or
append a new initialised entry. -/
def upsertRecord (m : List EmployeeRollup) (r : TrainingRecord) : List EmployeeRollup :=
  match m with
  | [] => [addCourse (initRollup r) r]
  | e :: rest =>
    if e.employee_code = r.employee_code then addCourse e r :: rest
    else e :: upsertRecord rest r

/-- `employeeCompletionRates`: fold the whole filtered dataset into the map. -/
def employeeCompletionRates (data : List TrainingRecord) : List EmployeeRollup :=
  data.foldl upsertRecord []

/-- The record belongs to employee code `c`. -/
def matchesCode (c : String) (x : TrainingRecord) : Bool :=
  decide (x.employee_code = c)

/-- The record counts as completed for the rollup. -/
def isDone (x : TrainingRecord) : Bool :=
  decide (effStatus x = "Completed")

/-- What one map entry must say about the records processed so far. -/
def entryOk (p : List TrainingRecord) (e : EmployeeRollup) : Prop :=
  e.total_courses = (p.filter (matchesCode e.employee_code)).length ∧
  e.completed_courses = ((p.filter (matchesCode e.employee_code)).filter isDone).length ∧
  e.courses = (p.filter (matchesCode e.employee_code)).map mkCourse ∧
  0 < e.total_courses ∧
  e.completion_rate = jsRound ((e.completed_courses : ℚ) / (e.total_courses : ℚ) * 100)

/-- Invariant of the fold: distinct codes, every processed record's code
has an entry, and every entry's statistics describe the processed prefix. -/
def RollupInv (p : List TrainingRecord) (m : List EmployeeRollup) : Prop :=
  (m.map (fun e => e.employee_code)).Nodup ∧
  (∀ x ∈ p, x.employee_code ∈ m.map (fun e => e.employee_code)) ∧
  (∀ e ∈ m, entryOk p e)

/-- The code list of `upsertRecord`: unchanged on a hit, the new code
appended on a miss. -/
lemma upsert_codes (r : TrainingRecord) :
    ∀ m : List EmployeeRollup,
      (upsertRecord m r).map (fun e => e.employee_code) =
        if r.employee_code ∈ m.map (fun e => e.employee_code)
        then m.map (fun e => e.employee_code)
        else m.map (fun e => e.employee_code) ++ [r.employee_code] := by
  intro m
  induction m with
  | nil => simp [upsertRecord, addCourse, initRollup]
  | cons e t ih =>
    by_cases hc : e.employee_code = r.employee_code
    · simp [upsertRecord, hc, addCourse]
    · rw [upsertRecord, if_neg hc]
      simp only [List.map_cons, ih]
      by_cases hm : r.employee_code ∈ t.map (fun e => e.employee_code)
      · simp [hm]
      · have hne : r.employee_code ≠ e.employee_code := fun hcontra => hc hcontra.symm
        simp [hm, hne]

/-- `upsertRecord` keeps the codes distinct. -/
lemma upsert_nodup (r : TrainingRecord) (m : List EmployeeRollup)
    (h : (m.map (fun e => e.employee_code)).Nodup) :
    ((upsertRecord m r).map (fun e => e.employee_code)).Nodup := by
  rw [upsert_codes r m]
  split_ifs with hm
  · exact h
  · simp [List.nodup_append, h, hm]

/-- With distinct codes, an element of `upsertRecord m r` is an untouched
entry of a different code, the updated unique entry for `r`'s code, or
the freshly appended entry for a first-seen code. -/
lemma upsert_cases (r : TrainingRecord) :
    ∀ m : List EmployeeRollup, (m.map (fun e => e.employee_code)).Nodup →
      ∀ e₁ ∈ upsertRecord m r,
        (e₁ ∈ m ∧ e₁.employee_code ≠ r.employee_code) ∨
        (∃ e ∈ m, e.employee_code = r.employee_code ∧ e₁ = addCourse e r) ∨
        (r.employee_code ∉ m.map (fun e => e.employee_code) ∧
          e₁ = addCourse (initRollup r) r) := by
  intro m
  induction m with
  | nil =>
    intro _ e₁ h₁
    simp only [upsertRecord, List.mem_singleton] at h₁
    exact Or.inr (Or.inr ⟨by simp, h₁⟩)
  | cons e t ih =>
    intro hnd e₁ h₁
    have hnd_t : (t.map (fun e => e.employee_code)).Nodup := (List.nodup_cons.mp hnd).2
    have hhead : e.employee_code ∉ t.map (fun e => e.employee_code) :=
      (List.nodup_cons.mp hnd).1
    by_cases hc : e.employee_code = r.employee_code
    · simp only [upsertRecord, if_pos hc] at h₁
      rcases List.mem_cons.mp h₁ with hp1 | hp2
      · exact Or.inr (Or.inl ⟨e, List.mem_cons_self _ _, hc, hp1⟩)
      · refine Or.inl ⟨List.mem_cons_of_mem _ hp2, fun hcontra => ?_⟩
        apply hhead
        rw [hc, ← hcontra]
        simpa using List.mem_map_of_mem (fun e => e.employee_code) hp2
    · simp only [upsertRecord, if_neg hc] at h₁
      rcases List.mem_cons.mp h₁ with hp1 | hp2
      · subst hp1
        exact Or.inl ⟨List.mem_cons_self _ _, fun hcontra => hc hcontra⟩
      · rcases ih hnd_t e₁ hp2 with ⟨hmem, hne⟩ | ⟨e₂, hmem, hcode, heq⟩ | ⟨hnm, heq⟩
        · exact Or.inl ⟨List.mem_cons_of_mem _ hmem, hne⟩
        · exact Or.inr (Or.inl ⟨e₂, List.mem_cons_of_mem _ hmem, hcode, heq⟩)
        · refine Or.inr (Or.inr ⟨?_, heq⟩)
          simp only [List.map_cons, List.mem_cons]
          rintro (hcontra | hcontra)
          · exact hc hcontra.symm
          · exact hnm hcontra

/-- Appending a record of a different code changes nothing about an entry. -/
lemma entryOk_extend_ne (p : List TrainingRecord) (r : TrainingRecord) (e : EmployeeRollup)
    (he : entryOk p e) (hne : e.employee_code ≠ r.employee_code) :
    entryOk (p ++ [r]) e := by
  obtain ⟨h1, h2, h3, h4, h5⟩ := he
  have hfr : matchesCode e.employee_code r = false := by
    simp only [matchesCode, decide_eq_false_iff_not]
    exact fun hcontra => hne hcontra.symm
  have hfilter : (p ++ [r]).filter (matchesCode e.employee_code) =
      p.filter (matchesCode e.employee_code) := by
    rw [List.filter_append]
    simp [hfr]
  exact ⟨by rw [hfilter]; exact h1, by rw [hfilter]; exact h2,
    by rw [hfilter]; exact h3, h4, h5⟩

/-- Updating the entry whose code matches the appended record keeps it
correct: all four statistics advance together. -/
lemma entryOk_add (p : List TrainingRecord) (r : TrainingRecord) (e : EmployeeRollup)
    (he : entryOk p e) (hce : e.employee_code = r.employee_code) :
    entryOk (p ++ [r]) (addCourse e r) := by
  obtain ⟨h1, h2, h3, h4, h5⟩ := he
  have htr : matchesCode e.employee_code r = true := by
    simp [matchesCode, hce]
  have hfilter : (p ++ [r]).filter (matchesCode e.employee_code) =
      p.filter (matchesCode e.employee_code) ++ [r] := by
    rw [List.filter_append]
    simp [htr]
  have hcode : (addCourse e r).employee_code = e.employee_code := rfl
  refine ⟨?_, ?_, ?_, ?_, rfl⟩
  · rw [hcode, hfilter, List.length_append, ← h1]
    rfl
  · rw [hcode, hfilter, List.filter_append, List.length_append]
    show (if effStatus r = "Completed" then e.completed_courses + 1
          else e.completed_courses) = _
    by_cases hdone : effStatus r = "Completed"
    · have : isDone r = true := by simp [isDone, hdone]
      simp [hdone, this, h2]
    · have : isDone r = false := by simp [isDone, hdone]
      simp [hdone, this, h2]
  · rw [hcode, hfilter, List.map_append]
    show e.courses ++ [mkCourse r] = _
    rw [h3]
    rfl
  · show 0 < e.total_courses + 1
    omega

/-- The freshly appended entry for a first-seen code is correct. -/
lemma entryOk_new (p : List TrainingRecord) (r : TrainingRecord)
    (hz : p.filter (matchesCode r.employee_code) = []) :
    entryOk (p ++ [r]) (addCourse (initRollup r) r) := by
  have htr : matchesCode r.employee_code r = true := by simp [matchesCode]
  have hcode : (addCourse (initRollup r) r).employee_code = r.employee_code := rfl
  have hfilter : (p ++ [r]).filter (matchesCode r.employee_code) = [r] := by
    rw [List.filter_append, hz]
    simp [htr]
  refine ⟨?_, ?_, ?_, ?_, rfl⟩
  · rw [hcode, hfilter]
    rfl
  · rw [hcode, hfilter]
    show (if effStatus r = "Completed" then 0 + 1 else 0) = _
    by_cases hdone : effStatus r = "Completed"
    · have : isDone r = true := by simp [isDone, hdone]
      simp [hdone, this]
    · have : isDone r = false := by simp [isDone, hdone]
      simp [hdone, this]
  · rw [hcode, hfilter]
    rfl
  · show 0 < 0 + 1
    omega

/-- `upsertRecord` preserves the rollup invariant. -/
lemma upsert_inv (p : List TrainingRecord) (r : TrainingRecord) (m : List EmployeeRollup)
    (h : RollupInv p m) : RollupInv (p ++ [r]) (upsertRecord m r) := by
  obtain ⟨hnd, hcov, hok⟩ := h
  refine ⟨upsert_nodup r m hnd, ?_, ?_⟩
  · intro x hx
    rw [upsert_codes r m]
    rcases List.mem_append.mp hx with hx | hx
    · split_ifs with hm
      · exact hcov x hx
      · exact List.mem_append_left _ (hcov x hx)
    · have hxr : x = r := List.mem_singleton.mp hx
      subst hxr
      split_ifs with hm
      · exact hm
      · exact List.mem_append_right _ (List.mem_singleton_self _)
  · intro e₁ he₁
    rcases upsert_cases r m hnd e₁ he₁ with ⟨hmem, hne⟩ | ⟨e, hmem, hcode, heq⟩ | ⟨hnm, heq⟩
    · exact entryOk_extend_ne p r e₁ (hok e₁ hmem) hne
    · subst heq
      exact entryOk_add p r e (hok e hmem) hcode
    · subst heq
      refine entryOk_new p r ?_
      rw [List.filter_eq_nil_iff]
      intro a ha
      simp only [matchesCode, decide_eq_true_eq]
      intro hcontra
      exact hnm (hcontra ▸ hcov a ha)

/-- The fold maintains the invariant over any processed prefix. -/
lemma foldl_upsert_inv :
    ∀ (l p : List TrainingRecord) (m : List EmployeeRollup),
      RollupInv p m → RollupInv (p ++ l) (l.foldl upsertRecord m) := by
  intro l
  induction l with
  | nil =>
    intro p m h
    simpa using h
  | cons r t ih =>
    intro p m h
    have h3 := ih (p ++ [r]) (upsertRecord m r) (upsert_inv p r m h)
    simpa [List.append_assoc] using h3

/-- The finished rollup satisfies the invariant for the whole dataset. -/
lemma rollupInv_employeeCompletionRates (data : List TrainingRecord) :
    RollupInv data (employeeCompletionRates data) := by
  have hbase : RollupInv [] ([] : List EmployeeRollup) := by
    refine ⟨by simp, ?_, ?_⟩ <;> intro x hx <;> exact absurd hx (List.not_mem_nil x)
  have h := foldl_upsert_inv data [] [] hbase
  simpa [employeeCompletionRates] using h

/-- C9: the rollup has one entry per distinct employee code (codes are
distinct and every input code is represented), and each entry satisfies
`total_courses` = number of records with that code,
`completed_courses ≤ total_courses`, `courses.length = total_courses`,
and `completion_rate = round(completed/total*100)`. -/
theorem C9_employee_rollup (data : List TrainingRecord) :
    ((employeeCompletionRates data).map (fun e => e.employee_code)).Nodup ∧
    (∀ x ∈ data, x.employee_code ∈
        (employeeCompletionRates data).map (fun e => e.employee_code)) ∧
    ∀ e ∈ employeeCompletionRates data,
      e.total_courses = (data.filter (matchesCode e.employee_code)).length ∧
      e.completed_courses ≤ e.total_courses ∧
      e.courses.length = e.total_courses ∧
      e.completion_rate =
        jsRound ((e.completed_courses : ℚ) / (e.total_courses : ℚ) * 100) := by
  obtain ⟨hnd, hcov, hok⟩ := rollupInv_employeeCompletionRates data
  refine ⟨hnd, hcov, fun e he => ?_⟩
  obtain ⟨h1, h2, h3, h4, h5⟩ := hok e he
  refine ⟨h1, ?_, ?_, h5⟩
  · rw [h1, h2]
    exact List.length_filter_le _ _
  · rw [h3, h1, List.length_map]
